import Mathlib

/-!
Verification development for the-stack-v2-packager.

The repository converts parquet files of source-code metadata rows into
newline-delimited JSON shards: rows are materialized from Arrow record
batches (src/rust/src/io.rs, `convert_column_to_json` and
`load_parquet_as_json_parallel`), each row's external blob is decoded from a
declared legacy encoding (`decode_to_string`), and chunks of rows are packed
into single gzip artifacts by `process_parquet_file2`
(src/rust/src/main.rs), which splices independently compressed row bodies
between one synthesized gzip header and trailer.

Machine integers are modelled as `Nat` with explicit reduction modulo 2^32
where the Rust code works on `u32`; a byte is a `Nat` taken modulo 256 at
the points where the code consumes it as a `u8`.
-/

set_option maxRecDepth 100000

/-- One byte of data, as a natural number (reduced mod 256 where consumed). -/
abbrev Byte := Nat

/-- Little-endian 4-byte encoding of a 32-bit value (`u32::to_le_bytes`). -/
def u32le (n : Nat) : List Byte :=
  [n % 256, n / 256 % 256, n / 65536 % 256, n / 16777216 % 256]

/-- Read the first four bytes of a list as a little-endian 32-bit value. -/
def readU32le (l : List Byte) : Nat :=
  l.getD 0 0 + 256 * l.getD 1 0 + 65536 * l.getD 2 0 + 16777216 * l.getD 3 0

/-- One shift step of the reflected CRC-32 polynomial division over the
polynomial 0xEDB88320 (the polynomial crc32fast implements). -/
def crc32Step (s : Nat) : Nat :=
  if s % 2 = 1 then (s / 2) ^^^ 0xEDB88320 else s / 2

/-- Fold one byte into the running CRC-32 state: xor the byte into the low
eight bits, then eight polynomial shift steps (`Hasher::update`, one byte). -/
def crc32Byte (s : Nat) (b : Byte) : Nat :=
  crc32Step^[8] (s ^^^ b % 256)

/-- CRC-32 (IEEE) of a byte sequence, as crc32fast's
`Hasher::new`/`update`/`finalize` computes it: initial state 0xFFFFFFFF,
one `crc32Byte` fold per byte, final complement. -/
def crc32 (data : List Byte) : Nat :=
  (data.foldl crc32Byte 0xFFFFFFFF) ^^^ 0xFFFFFFFF

theorem crc32_known_vector_a : crc32 [0x61] = 0xE8B7BE43 := by decide

theorem crc32_nil : crc32 [] = 0 := by decide

/-- The fixed 10-byte gzip member header `process_parquet_file2` writes
(src/rust/src/main.rs:17, `GZIP_HEADER`). -/
def GZIP_HEADER : List Byte :=
  [0x1f, 0x8b, 0x08, 0x00, 0x00, 0x00, 0x00, 0x00, 0x00, 0x00]

/-- Mirrors `struct ChunkResult` (src/rust/src/main.rs:173): one row's raw
compressed body, the CRC-32 of its uncompressed bytes, and its uncompressed
length as a `u32`. -/
structure ChunkResult where
  compressed : List Byte
  crc : Nat
  size : Nat

/-- One row's work inside `process_parquet_file2`'s parallel map
(src/rust/src/main.rs:196): hash the uncompressed line, gzip-compress it and
keep `compressed[10..compressed.len()-8]`.  flate2's gzip output is a fixed
10-byte header, the raw DEFLATE body, then an 8-byte trailer, so that slice
is exactly the DEFLATE body of `bytes`; the body is abstracted as an
arbitrary function `deflate` of the input because no claim depends on the
compressed bits themselves. -/
def mkChunkResult (deflate : List Byte → List Byte) (bytes : List Byte) : ChunkResult :=
  { compressed := deflate bytes
    crc := crc32 bytes
    size := bytes.length % 4294967296 }

/-- The sequential combine loop of `process_parquet_file2`
(src/rust/src/main.rs:219): starting from `GZIP_HEADER`, append every row's
compressed body; `total_crc` is overwritten each iteration with a fresh
hasher fed the 4 little-endian bytes of that row's `crc` (so after the loop
it holds the CRC-32 of the last row's checksum bytes, or 0 for an empty
chunk, the value `Hasher::new().finalize()` gives); `total_size` is the
wrapping `u32` sum of the sizes.  The finalized `total_crc` and `total_size`
are appended little-endian as the trailer. -/
def assembleFromResults (results : List ChunkResult) : List Byte :=
  let st := results.foldl
    (fun (st : List Byte × Nat × Nat) r =>
      (st.1 ++ r.compressed, crc32 (u32le r.crc), (st.2.2 + r.size) % 4294967296))
    (GZIP_HEADER, 0, 0)
  st.1 ++ (u32le st.2.1 ++ u32le st.2.2)

/-- One chunk's artifact as `process_parquet_file2` assembles it from the
uncompressed serialized lines of its surviving rows. -/
def assembleChunk (deflate : List Byte → List Byte) (rowLines : List (List Byte)) : List Byte :=
  assembleFromResults (rowLines.map (mkChunkResult deflate))

/-- The CRC32 field of a gzip member's trailer: bytes `[len-8, len-4)`. -/
def storedCrc (artifact : List Byte) : Nat :=
  readU32le (artifact.drop (artifact.length - 8))

/-- The ISIZE field of a gzip member's trailer: the last four bytes. -/
def storedIsize (artifact : List Byte) : Nat :=
  readU32le (artifact.drop (artifact.length - 4))

/-- Modelled from the spec (gzip container framing, RFC 1952 2.3.1, which the
spec's ContainerAssembler section relies on): a one-pass gzip decode that
yields payload `p` must find `CRC32 = crc32 p` and `ISIZE = |p| mod 2^32` in
the member trailer; a conforming decoder verifies both after inflating, so an
artifact whose stored trailer does not match `p` cannot decode to `p`. -/
def gzipTrailerChecks (artifact payload : List Byte) : Bool :=
  storedCrc artifact == crc32 payload &&
    storedIsize artifact == payload.length % 4294967296

theorem readU32le_u32le (n : Nat) : readU32le (u32le n) = n % 4294967296 := by
  simp [readU32le, u32le]
  omega

theorem storedCrc_append_trailer (a : List Byte) (c s : Nat) :
    storedCrc (a ++ (u32le c ++ u32le s)) = c % 4294967296 := by
  have hlen : (a ++ (u32le c ++ u32le s)).length = a.length + 8 := by
    simp [u32le]
  have hdrop : (a ++ (u32le c ++ u32le s)).drop ((a ++ (u32le c ++ u32le s)).length - 8)
      = u32le c ++ u32le s := by
    rw [hlen, Nat.add_sub_cancel, List.drop_left]
  rw [storedCrc, hdrop]
  simp [readU32le, u32le]
  omega

theorem storedIsize_append_trailer (a : List Byte) (c s : Nat) :
    storedIsize (a ++ (u32le c ++ u32le s)) = s % 4294967296 := by
  have hlen : (a ++ (u32le c ++ u32le s)).length = (a ++ u32le c).length + 4 := by
    simp [u32le]
  have hassoc : a ++ (u32le c ++ u32le s) = (a ++ u32le c) ++ u32le s := by
    rw [List.append_assoc]
  have hdrop : (a ++ (u32le c ++ u32le s)).drop ((a ++ (u32le c ++ u32le s)).length - 4)
      = u32le s := by
    rw [hlen, Nat.add_sub_cancel, hassoc, List.drop_left]
  rw [storedIsize, hdrop, readU32le_u32le]

/-- C1: refuted on the code (code bug).  For the chunk whose two surviving
rows serialize to the lines "a\n" and "b\n", the 4-byte checksum
`process_parquet_file2` writes into the trailer is the CRC-32 of the
little-endian checksum bytes of the LAST row — the combine loop re-hashes
`chunk.crc.to_le_bytes()` into a fresh hasher and overwrites the total each
iteration — and it differs from the CRC-32 of the direct concatenation of
the rows' uncompressed bytes, whatever the compressor produced for the
bodies. -/
theorem c1_trailer_crc_is_rehash_not_combined (deflate : List Byte → List Byte) :
    storedCrc (assembleChunk deflate [[97, 10], [98, 10]])
        = crc32 (u32le (crc32 [98, 10])) ∧
    storedCrc (assembleChunk deflate [[97, 10], [98, 10]])
        ≠ crc32 ([97, 10] ++ [98, 10]) := by
  have h : assembleChunk deflate [[97, 10], [98, 10]] =
      ((GZIP_HEADER ++ deflate [97, 10]) ++ deflate [98, 10]) ++
        (u32le (crc32 (u32le (crc32 [98, 10]))) ++ u32le 4) := rfl
  constructor
  · rw [h, storedCrc_append_trailer]
    decide
  · rw [h, storedCrc_append_trailer]
    decide

/-- C3: refuted on the code (code bug).  For the chunk whose surviving rows
serialize to "a\n" and "b\n", the assembled artifact's trailer does not pass
the RFC 1952 check against the concatenation "a\nb\n" of the rows' lines —
its CRC32 field holds the re-hash of the last row's checksum bytes — so a
one-pass gzip decode of the artifact cannot yield that concatenation,
whatever DEFLATE bodies the parallel compressors produced. -/
theorem c3_one_pass_decode_cannot_yield_concat (deflate : List Byte → List Byte) :
    gzipTrailerChecks (assembleChunk deflate [[97, 10], [98, 10]])
      ([97, 10] ++ [98, 10]) = false := by
  have h : assembleChunk deflate [[97, 10], [98, 10]] =
      ((GZIP_HEADER ++ deflate [97, 10]) ++ deflate [98, 10]) ++
        (u32le (crc32 (u32le (crc32 [98, 10]))) ++ u32le 4) := rfl
  rw [gzipTrailerChecks, h, storedCrc_append_trailer, storedIsize_append_trailer]
  decide

/-- Rust `slice::chunks(k)` as used in `for chunk in rows.chunks(max_lines)`
(src/rust/src/main.rs:192): consecutive runs of `k` elements, the last run
possibly shorter.  (`chunks` panics in Rust for `k = 0`; the theorems assume
`0 < k`.) -/
def chunksOf (k : Nat) : List α → List (List α)
  | [] => []
  | a :: as => (a :: as.take (k - 1)) :: chunksOf k (as.drop (k - 1))
termination_by l => l.length
decreasing_by
  simp only [List.length_drop, List.length_cons]
  omega

theorem chunksOf_flatten (k : Nat) (l : List α) : (chunksOf k l).flatten = l := by
  induction l using chunksOf.induct k with
  | case1 => simp [chunksOf]
  | case2 a as ih =>
    rw [chunksOf, List.flatten_cons, ih]
    simp [List.take_append_drop]

theorem chunksOf_eq_nil_iff (k : Nat) (l : List α) : chunksOf k l = [] ↔ l = [] := by
  cases l with
  | nil => simp [chunksOf]
  | cons a as => simp [chunksOf]

theorem chunksOf_length (k : Nat) (hk : 0 < k) (l : List α) :
    (chunksOf k l).length = (l.length + k - 1) / k := by
  induction l using chunksOf.induct k with
  | case1 =>
    have h0 : (k - 1) / k = 0 := Nat.div_eq_of_lt (by omega)
    simp [chunksOf, h0]
  | case2 a as ih =>
    rw [chunksOf, List.length_cons, ih, List.length_drop, List.length_cons]
    have h2 : as.length + 1 + k - 1 = as.length + k := by omega
    rw [h2, Nat.add_div_right _ hk]
    rcases Nat.lt_or_ge as.length (k - 1) with hlt | hge
    · have e1 : as.length - (k - 1) + k - 1 = k - 1 := by omega
      rw [e1, Nat.div_eq_of_lt (by omega), Nat.div_eq_of_lt (by omega)]
    · have e1 : as.length - (k - 1) + k - 1 = as.length := by omega
      rw [e1]

theorem chunksOf_middle_length (k : Nat) (hk : 0 < k) (l : List α) :
    ∀ i c, (chunksOf k l)[i]? = some c → i + 1 < (chunksOf k l).length →
      c.length = k := by
  induction l using chunksOf.induct k with
  | case1 =>
    intro i c hc _
    simp [chunksOf] at hc
  | case2 a as ih =>
    intro i c hc hi
    rw [chunksOf] at hc hi
    cases i with
    | zero =>
      rw [List.getElem?_cons_zero] at hc
      have hne : chunksOf k (as.drop (k - 1)) ≠ [] := by
        intro h0
        rw [h0] at hi
        simp at hi
      have hdrop_ne : as.drop (k - 1) ≠ [] := by
        intro h0
        exact hne ((chunksOf_eq_nil_iff k _).mpr h0)
      have hlen : k - 1 < as.length := by
        by_contra h
        push_neg at h
        exact hdrop_ne (List.drop_eq_nil_of_le h)
      cases hc
      simp [List.length_take]
      omega
    | succ j =>
      rw [List.getElem?_cons_succ] at hc
      apply ih j c hc
      simp only [List.length_cons] at hi ⊢
      omega

theorem chunksOf_getLast_length (k : Nat) (hk : 0 < k) (l : List α) :
    ∀ c, (chunksOf k l).getLast? = some c →
      c.length = l.length - ((chunksOf k l).length - 1) * k := by
  induction l using chunksOf.induct k with
  | case1 =>
    intro c hc
    simp [chunksOf] at hc
  | case2 a as ih =>
    intro c hc
    rw [chunksOf] at hc ⊢
    by_cases hrest : chunksOf k (as.drop (k - 1)) = []
    · rw [hrest] at hc ⊢
      have hdrop : as.drop (k - 1) = [] := (chunksOf_eq_nil_iff k _).mp hrest
      have hlen : as.length ≤ k - 1 := by
        have hcl := congrArg List.length hdrop
        simp only [List.length_drop, List.length_nil] at hcl
        omega
      simp only [List.getLast?_singleton, Option.some_inj] at hc
      cases hc
      simp [List.length_take]
      omega
    · obtain ⟨b, bs, hbs⟩ := List.exists_cons_of_ne_nil hrest
      rw [hbs] at hc ⊢
      rw [List.getLast?_cons_cons] at hc
      have hdrop_ne : as.drop (k - 1) ≠ [] := by
        intro h0
        apply hrest
        exact (chunksOf_eq_nil_iff k _).mpr h0
      have hlen : k - 1 < as.length := by
        by_contra h
        push_neg at h
        exact hdrop_ne (List.drop_eq_nil_of_le h)
      have hih := ih c (hbs ▸ hc)
      rw [List.length_drop] at hih
      rw [hbs] at hih
      simp only [List.length_cons] at hih ⊢
      have e1 : bs.length + 1 + 1 - 1 = bs.length + 1 := by omega
      have e2 : bs.length + 1 - 1 = bs.length := by omega
      rw [e1]
      rw [e2] at hih
      have hexp : (bs.length + 1) * k = bs.length * k + k := by ring
      rw [hexp]
      generalize bs.length * k = m at hih ⊢
      omega

/-- C4: confirmed.  For `N > 0` rows and chunk size `k > 0`,
`rows.chunks(max_lines)` produces exactly `ceil(N/k) = (N + k - 1) / k`
chunks, every chunk but possibly the last has exactly `k` rows, the last has
the remainder `N - k * (chunk_count - 1)`, and concatenating the chunks in
order reproduces the original row sequence exactly once. -/
theorem c4_chunk_partitioning (α : Type) (k : Nat) (rows : List α)
    (_hN : 0 < rows.length) (hk : 0 < k) :
    (chunksOf k rows).length = (rows.length + k - 1) / k ∧
    (chunksOf k rows).flatten = rows ∧
    (∀ i c, (chunksOf k rows)[i]? = some c → i + 1 < (chunksOf k rows).length →
      c.length = k) ∧
    (∀ c, (chunksOf k rows).getLast? = some c →
      c.length = rows.length - ((chunksOf k rows).length - 1) * k) :=
  ⟨chunksOf_length k hk rows, chunksOf_flatten k rows,
   chunksOf_middle_length k hk rows, chunksOf_getLast_length k hk rows⟩

/-- Witness for C4 at the concrete input `rows = [10, 20, 30]`, `k = 2`:
two chunks `[10, 20]` and `[30]`. -/
theorem c4_chunk_partitioning_witness :
    0 < ([10, 20, 30] : List Nat).length ∧ 0 < 2 ∧
    ((chunksOf 2 [10, 20, 30]).length = (3 + 2 - 1) / 2 ∧
     (chunksOf 2 [10, 20, 30]).flatten = [10, 20, 30] ∧
     (∀ i c, (chunksOf 2 [10, 20, 30])[i]? = some c →
       i + 1 < (chunksOf 2 [10, 20, 30]).length → c.length = 2) ∧
     (∀ c, (chunksOf 2 [10, 20, 30]).getLast? = some c →
       c.length = 3 - ((chunksOf 2 [10, 20, 30]).length - 1) * 2)) :=
  ⟨by decide, by decide, c4_chunk_partitioning Nat 2 [10, 20, 30] (by decide) (by decide)⟩

/-- Modelled from the spec: one row's `CompressedPayload`
`{raw_bytes, crc32, uncompressed_size}` (spec section 3).  The row-outcome
accounting this feeds is described by the spec but its code is not among the
repository files under src/ (there `process_row` unwraps every error). -/
structure CompressedPayload where
  raw_bytes : List Byte
  crc32v : Nat
  uncompressed_size : Nat
deriving DecidableEq

/-- Modelled from the spec: the closed per-row outcome variant
`Ok(CompressedPayload) | MissingBlob` (spec sections 4.3 and 9); every other
row-level failure aborts the run before an outcome is recorded. -/
inductive RowOutcome where
  | ok (payload : CompressedPayload)
  | missingBlob
deriving DecidableEq

/-- Modelled from the spec: the abort value
`TooManyMissing{missing_count, chunk_size}` (spec section 4.3). -/
inductive RunError where
  | tooManyMissing (missing_count : Nat) (chunk_size : Nat)
deriving DecidableEq

def isMissing : RowOutcome → Bool
  | .missingBlob => true
  | .ok _ => false

def payloadOf : RowOutcome → Option CompressedPayload
  | .missingBlob => none
  | .ok p => some p

/-- Modelled from the spec: per-chunk missing-row accounting (spec section
4.3, steps b-d; the code implementing it is not under src/).  Count
`MissingBlob` outcomes; if `missing_count / chunk_size > 0.01` — as integers,
`100 * missing_count > chunk_size` — abort with `TooManyMissing`; otherwise
keep the surviving payloads in original row order, skipping missing rows. -/
def processChunkOutcomes (outcomes : List RowOutcome) :
    Except RunError (List CompressedPayload) :=
  let missing_count := (outcomes.filter isMissing).length
  let chunk_size := outcomes.length
  if 100 * missing_count > chunk_size then
    .error (.tooManyMissing missing_count chunk_size)
  else
    .ok (outcomes.filterMap payloadOf)

/-- Modelled from the spec: chunks are processed sequentially and a
threshold abort stops the whole run; below the threshold the chunk's
survivors are emitted and processing continues with the next chunk (spec
sections 4.3 and 7). -/
def processAllChunks : List (List RowOutcome) →
    Except RunError (List (List CompressedPayload))
  | [] => .ok []
  | c :: rest =>
    match processChunkOutcomes c with
    | .error e => .error e
    | .ok p =>
      match processAllChunks rest with
      | .error e => .error e
      | .ok ps => .ok (p :: ps)

/-- C2: confirmed against the spec-modelled accounting.  For every chunk,
`MissingBlob` outcomes are counted and their rows are dropped from the
chunk's output; when `missing_count / chunk_size > 0.01` the run aborts with
`TooManyMissing` carrying the missing count and chunk size (nothing after
the failing chunk is processed), and at or below the ratio the chunk's
surviving rows, in original order, are emitted and processing continues with
the remaining chunks. -/
theorem c2_missing_blob_threshold (outcomes : List RowOutcome)
    (rest : List (List RowOutcome)) :
    (100 * (outcomes.filter isMissing).length > outcomes.length →
      processAllChunks (outcomes :: rest) =
        .error (.tooManyMissing (outcomes.filter isMissing).length
          outcomes.length)) ∧
    (100 * (outcomes.filter isMissing).length ≤ outcomes.length →
      processAllChunks (outcomes :: rest) =
        match processAllChunks rest with
        | .error e => .error e
        | .ok ps => .ok (outcomes.filterMap payloadOf :: ps)) := by
  constructor
  · intro h
    rw [processAllChunks]
    rw [processChunkOutcomes]
    simp only [if_pos h]
  · intro h
    rw [processAllChunks]
    rw [processChunkOutcomes]
    simp only [if_neg (by omega : ¬ 100 * (outcomes.filter isMissing).length > outcomes.length)]


/-- JSON values (serde_json::Value), as far as the converter produces them. -/
inductive Json where
  | null
  | bool (b : Bool)
  | num (n : Int)
  | str (s : String)
  | arr (elems : List Json)
  | obj (fields : List (String × Json))

/-- One Arrow column as `convert_column_to_json` (src/rust/src/io.rs:29)
type-dispatches on it: each supported `DataType` carries its typed cells, a
cell being `none` when the column's null bit is set for that row; any other
`DataType` is `unsupported`.  A `listUtf8` cell is itself a list whose
entries may be null. -/
inductive ArrowColumn where
  | utf8 (cells : List (Option String))
  | int64 (cells : List (Option Int))
  | boolean (cells : List (Option Bool))
  | listUtf8 (cells : List (Option (List (Option String))))
  | timestampNs (cells : List (Option Int))
  | unsupported (typeName : String) (numRows : Nat)

/-- Number of rows a column holds. -/
def colLength : ArrowColumn → Nat
  | .utf8 cells => cells.length
  | .int64 cells => cells.length
  | .boolean cells => cells.length
  | .listUtf8 cells => cells.length
  | .timestampNs cells => cells.length
  | .unsupported _ numRows => numRows

/-- Whether the column's `DataType` has a conversion arm. -/
def isSupportedCol : ArrowColumn → Bool
  | .unsupported _ _ => false
  | _ => true

/-- Mirrors `convert_column_to_json` (src/rust/src/io.rs:29): dispatch on the
column's type; a null cell of every supported type becomes JSON null; a
non-null list cell keeps only its non-null entries (`filter_map`); an
unsupported type is the error arm at src/rust/src/io.rs:106.  The caller
always passes `row_idx < num_rows`; an out-of-range access, which would
panic in Rust, is modelled as a distinct error. -/
def convert_column_to_json (column : ArrowColumn) (row_idx : Nat) :
    Except String Json :=
  match column with
  | .utf8 cells =>
    match cells[row_idx]? with
    | none => .error "index out of range"
    | some none => .ok .null
    | some (some s) => .ok (.str s)
  | .int64 cells =>
    match cells[row_idx]? with
    | none => .error "index out of range"
    | some none => .ok .null
    | some (some n) => .ok (.num n)
  | .boolean cells =>
    match cells[row_idx]? with
    | none => .error "index out of range"
    | some none => .ok .null
    | some (some b) => .ok (.bool b)
  | .listUtf8 cells =>
    match cells[row_idx]? with
    | none => .error "index out of range"
    | some none => .ok .null
    | some (some entries) => .ok (.arr ((entries.filterMap id).map Json.str))
  | .timestampNs cells =>
    match cells[row_idx]? with
    | none => .error "index out of range"
    | some none => .ok .null
    | some (some t) => .ok (.num t)
  | .unsupported typeName _ => .error ("Failed on " ++ typeName)

/-- An Arrow RecordBatch: a shared row count and named columns, in schema
order (each column's length equals `numRows`; theorems that need it state it
as a hypothesis). -/
structure RecordBatch where
  numRows : Nat
  columns : List (String × ArrowColumn)

/-- Insert-or-replace into a JSON object's field list
(`serde_json::Map::insert`; the map's internal key order does not matter to
any claim, lookups do). -/
def insertField (m : List (String × Json)) (k : String) (v : Json) :
    List (String × Json) :=
  match m with
  | [] => [(k, v)]
  | (k0, v0) :: rest =>
    if k0 = k then (k, v) :: rest else (k0, v0) :: insertField rest k v

/-- One step of the per-row loop of `load_parquet_as_json_parallel`
(src/rust/src/io.rs:127): insert the converted value under the column's name
when the conversion succeeds (`if let Ok(value)`), silently skip the column
when it fails. -/
def rowFoldStep (row_idx : Nat) (m : List (String × Json))
    (nc : String × ArrowColumn) : List (String × Json) :=
  match convert_column_to_json nc.2 row_idx with
  | .ok v => insertField m nc.1 v
  | .error _ => m

/-- The per-row closure of `load_parquet_as_json_parallel`
(src/rust/src/io.rs:124): start from the empty object and fold every column
in schema order through `rowFoldStep`. -/
def materializeRow (batch : RecordBatch) (row_idx : Nat) : Json :=
  .obj (batch.columns.foldl (rowFoldStep row_idx) [])

/-- One batch's contribution: its rows in index order
(src/rust/src/io.rs:123). -/
def batchRows (b : RecordBatch) : List Json :=
  (List.range b.numRows).map (materializeRow b)

/-- `load_parquet_as_json_parallel` (src/rust/src/io.rs:110), sequential
reference semantics: every batch contributes its rows in index order, and
batches contribute in file order (`flat_map` over batches). -/
def load_parquet_as_json (batches : List RecordBatch) : List Json :=
  (batches.map batchRows).flatten

/-- Field lookup in a materialized row. -/
def objLookup (j : Json) (k : String) : Option Json :=
  match j with
  | .obj fields => fields.lookup k
  | _ => none

/-- C7: confirmed.  A null cell of every supported column type converts to
JSON null, and for a list-of-UTF-8-strings column a null list cell maps to
JSON null while the null entries inside a non-null list are dropped from the
resulting array rather than represented. -/
theorem c7_nulls_preserved_list_entries_dropped (row_idx : Nat) :
    (∀ cells : List (Option String), cells[row_idx]? = some none →
      convert_column_to_json (.utf8 cells) row_idx = .ok .null) ∧
    (∀ cells : List (Option Int), cells[row_idx]? = some none →
      convert_column_to_json (.int64 cells) row_idx = .ok .null) ∧
    (∀ cells : List (Option Bool), cells[row_idx]? = some none →
      convert_column_to_json (.boolean cells) row_idx = .ok .null) ∧
    (∀ cells : List (Option (List (Option String))), cells[row_idx]? = some none →
      convert_column_to_json (.listUtf8 cells) row_idx = .ok .null) ∧
    (∀ cells : List (Option Int), cells[row_idx]? = some none →
      convert_column_to_json (.timestampNs cells) row_idx = .ok .null) ∧
    (∀ (cells : List (Option (List (Option String))))
       (entries : List (Option String)),
      cells[row_idx]? = some (some entries) →
      convert_column_to_json (.listUtf8 cells) row_idx =
        .ok (.arr ((entries.filterMap id).map Json.str))) := by
  refine ⟨?_, ?_, ?_, ?_, ?_, ?_⟩ <;>
    first
      | (intro cells h; simp [convert_column_to_json, h])
      | (intro cells entries h; simp [convert_column_to_json, h])

theorem lookup_insertField_self (m : List (String × Json)) (k : String)
    (v : Json) : (insertField m k v).lookup k = some v := by
  induction m with
  | nil => simp [insertField, List.lookup]
  | cons p rest ih =>
    obtain ⟨k0, v0⟩ := p
    by_cases h : k0 = k
    · simp [insertField, h, List.lookup]
    · have hb : (k == k0) = false := beq_eq_false_iff_ne.mpr (fun hh => h hh.symm)
      simp [insertField, h, List.lookup, hb, ih]

theorem lookup_insertField_ne (m : List (String × Json)) (k k' : String)
    (v : Json) (h : k' ≠ k) :
    (insertField m k v).lookup k' = m.lookup k' := by
  have hb : (k' == k) = false := beq_eq_false_iff_ne.mpr h
  induction m with
  | nil => simp [insertField, List.lookup, hb]
  | cons p rest ih =>
    obtain ⟨k0, v0⟩ := p
    by_cases h0 : k0 = k
    · subst h0
      simp [insertField, List.lookup, hb]
    · by_cases h1 : k' = k0
      · subst h1
        simp [insertField, h0, List.lookup]
      · have hb1 : (k' == k0) = false := beq_eq_false_iff_ne.mpr h1
        simp [insertField, h0, List.lookup, hb1, ih]

theorem rowFoldStep_lookup_ne (row_idx : Nat) (m : List (String × Json))
    (nc : String × ArrowColumn) (name : String) (h : nc.1 ≠ name) :
    (rowFoldStep row_idx m nc).lookup name = m.lookup name := by
  rw [rowFoldStep]
  cases convert_column_to_json nc.2 row_idx with
  | ok v => exact lookup_insertField_ne m nc.1 name v (Ne.symm h)
  | error e => rfl

theorem rowFold_lookup_not_mem (row_idx : Nat)
    (cols : List (String × ArrowColumn)) (m : List (String × Json))
    (name : String) (h : name ∉ cols.map Prod.fst) :
    (cols.foldl (rowFoldStep row_idx) m).lookup name = m.lookup name := by
  induction cols generalizing m with
  | nil => rfl
  | cons nc rest ih =>
    simp only [List.map_cons, List.mem_cons, not_or] at h
    rw [List.foldl_cons, ih _ h.2, rowFoldStep_lookup_ne _ _ _ _ (Ne.symm h.1)]

theorem rowFold_lookup_mem (row_idx : Nat)
    (cols : List (String × ArrowColumn)) (m : List (String × Json))
    (name : String) (col : ArrowColumn) (hmem : (name, col) ∈ cols)
    (hnodup : (cols.map Prod.fst).Nodup) :
    (cols.foldl (rowFoldStep row_idx) m).lookup name =
      match convert_column_to_json col row_idx with
      | .ok v => some v
      | .error _ => m.lookup name := by
  induction cols generalizing m with
  | nil => cases hmem
  | cons nc rest ih =>
    simp only [List.map_cons, List.nodup_cons] at hnodup
    rw [List.foldl_cons]
    rcases List.mem_cons.mp hmem with heq | hrest
    · cases heq.symm
      rw [rowFold_lookup_not_mem _ _ _ _ hnodup.1]
      rw [rowFoldStep]
      cases convert_column_to_json col row_idx with
      | ok v => exact lookup_insertField_self m name v
      | error e => rfl
    · have hnamein : name ∈ rest.map Prod.fst :=
        List.mem_map.mpr ⟨(name, col), hrest, rfl⟩
      have hne : nc.1 ≠ name := fun h0 => hnodup.1 (h0 ▸ hnamein)
      rw [ih _ hrest hnodup.2]
      cases convert_column_to_json col row_idx with
      | ok v => rfl
      | error e => exact rowFoldStep_lookup_ne row_idx m nc name hne

theorem convert_isOk_of_supported (col : ArrowColumn) (row_idx : Nat)
    (hsup : isSupportedCol col = true) (hlt : row_idx < colLength col) :
    ∃ v, convert_column_to_json col row_idx = .ok v := by
  cases col with
  | utf8 cells =>
    simp only [colLength] at hlt
    have h : cells[row_idx]? = some cells[row_idx] := List.getElem?_eq_getElem hlt
    cases hc : cells[row_idx] with
    | none => exact ⟨.null, by simp [convert_column_to_json, h, hc]⟩
    | some s => exact ⟨.str s, by simp [convert_column_to_json, h, hc]⟩
  | int64 cells =>
    simp only [colLength] at hlt
    have h : cells[row_idx]? = some cells[row_idx] := List.getElem?_eq_getElem hlt
    cases hc : cells[row_idx] with
    | none => exact ⟨.null, by simp [convert_column_to_json, h, hc]⟩
    | some n => exact ⟨.num n, by simp [convert_column_to_json, h, hc]⟩
  | boolean cells =>
    simp only [colLength] at hlt
    have h : cells[row_idx]? = some cells[row_idx] := List.getElem?_eq_getElem hlt
    cases hc : cells[row_idx] with
    | none => exact ⟨.null, by simp [convert_column_to_json, h, hc]⟩
    | some b => exact ⟨.bool b, by simp [convert_column_to_json, h, hc]⟩
  | listUtf8 cells =>
    simp only [colLength] at hlt
    have h : cells[row_idx]? = some cells[row_idx] := List.getElem?_eq_getElem hlt
    cases hc : cells[row_idx] with
    | none => exact ⟨.null, by simp [convert_column_to_json, h, hc]⟩
    | some entries =>
      exact ⟨.arr ((entries.filterMap id).map Json.str),
        by simp [convert_column_to_json, h, hc]⟩
  | timestampNs cells =>
    simp only [colLength] at hlt
    have h : cells[row_idx]? = some cells[row_idx] := List.getElem?_eq_getElem hlt
    cases hc : cells[row_idx] with
    | none => exact ⟨.null, by simp [convert_column_to_json, h, hc]⟩
    | some t => exact ⟨.num t, by simp [convert_column_to_json, h, hc]⟩
  | unsupported typeName numRows => simp [isSupportedCol] at hsup

/-- C8: confirmed.  In a batch whose column names are distinct and whose
columns all carry `numRows` cells, materializing an in-range row omits the
field of every column of unsupported type, while every supported column of
the same row converts successfully and appears under its name with the
converted value; and the unsupported column never fails the row or the
batch: the whole batch still materializes exactly its `numRows` rows. -/
theorem c8_unsupported_column_omitted (batch : RecordBatch) (row_idx : Nat)
    (hnodup : (batch.columns.map Prod.fst).Nodup)
    (hwf : ∀ nc ∈ batch.columns, colLength nc.2 = batch.numRows)
    (hrow : row_idx < batch.numRows) :
    (∀ name typeName n,
      (name, ArrowColumn.unsupported typeName n) ∈ batch.columns →
      objLookup (materializeRow batch row_idx) name = none) ∧
    (∀ name col, (name, col) ∈ batch.columns → isSupportedCol col = true →
      ∃ v, convert_column_to_json col row_idx = .ok v ∧
        objLookup (materializeRow batch row_idx) name = some v) ∧
    (load_parquet_as_json [batch]).length = batch.numRows := by
  refine ⟨?_, ?_, ?_⟩
  · intro name typeName n hmem
    rw [materializeRow, objLookup,
      rowFold_lookup_mem row_idx batch.columns [] name _ hmem hnodup]
    rfl
  · intro name col hmem hsup
    have hlt : row_idx < colLength col := by
      rw [hwf (name, col) hmem]
      exact hrow
    obtain ⟨v, hv⟩ := convert_isOk_of_supported col row_idx hsup hlt
    refine ⟨v, hv, ?_⟩
    rw [materializeRow, objLookup,
      rowFold_lookup_mem row_idx batch.columns [] name col hmem hnodup, hv]
  · simp [load_parquet_as_json, batchRows]

/-- A concrete batch for the C8 witness: one row, one supported UTF-8 column
and one column of a type the converter does not handle. -/
def demoBatch : RecordBatch :=
  ⟨1, [("blob_id", .utf8 [some "x"]), ("weird", .unsupported "Float64" 1)]⟩

/-- Witness for C8 at the concrete one-row batch `demoBatch`. -/
theorem c8_unsupported_column_omitted_witness :
    (demoBatch.columns.map Prod.fst).Nodup ∧
    (∀ nc ∈ demoBatch.columns, colLength nc.2 = demoBatch.numRows) ∧
    0 < demoBatch.numRows ∧
    ((∀ name typeName n,
      (name, ArrowColumn.unsupported typeName n) ∈ demoBatch.columns →
      objLookup (materializeRow demoBatch 0) name = none) ∧
    (∀ name col, (name, col) ∈ demoBatch.columns → isSupportedCol col = true →
      ∃ v, convert_column_to_json col 0 = .ok v ∧
        objLookup (materializeRow demoBatch 0) name = some v) ∧
    (load_parquet_as_json [demoBatch]).length = demoBatch.numRows) :=
  ⟨by decide, by decide, by decide,
   c8_unsupported_column_omitted demoBatch 0 (by decide) (by decide) (by decide)⟩

/-- One task completing in the schedule model: task `i` writes its result —
a function of its own index only — into its own output slot. -/
def writeSlot (f : Nat → β) (st : Nat → Option β) (i : Nat) : Nat → Option β :=
  fun j => if j = i then some (f i) else st j

/-- Modelled from the spec: rayon's indexed parallel map-collect
(`into_par_iter().map(..).collect()`), which both
`load_parquet_as_json_parallel` and the chunk loop use.  The workers may
finish in any order — `sched` lists the task indices in completion order, a
permutation of `0..n` — but each task's result lands in its own slot and the
collected output reads the slots in index order. -/
def parCollect (f : Nat → β) (n : Nat) (sched : List Nat) : List (Option β) :=
  (List.range n).map (sched.foldl (writeSlot f) (fun _ => none))

theorem runSched_not_mem (f : Nat → β) (sched : List Nat)
    (st : Nat → Option β) (i : Nat) (h : i ∉ sched) :
    sched.foldl (writeSlot f) st i = st i := by
  induction sched generalizing st with
  | nil => rfl
  | cons a t ih =>
    simp only [List.mem_cons, not_or] at h
    rw [List.foldl_cons, ih _ h.2]
    simp [writeSlot, h.1]

theorem runSched_mem (f : Nat → β) (sched : List Nat)
    (st : Nat → Option β) (i : Nat) (h : i ∈ sched) :
    sched.foldl (writeSlot f) st i = some (f i) := by
  induction sched generalizing st with
  | nil => cases h
  | cons a t ih =>
    rw [List.foldl_cons]
    by_cases ht : i ∈ t
    · exact ih _ ht
    · have hia : i = a := by
        rcases List.mem_cons.mp h with h1 | h2
        · exact h1
        · exact absurd h2 ht
      rw [runSched_not_mem f t _ i ht]
      simp [writeSlot, hia]

theorem parCollect_eq_map (f : Nat → β) (n : Nat) (sched : List Nat)
    (hperm : sched.Perm (List.range n)) :
    parCollect f n sched = (List.range n).map (fun i => some (f i)) := by
  rw [parCollect]
  apply List.map_congr_left
  intro i hi
  exact runSched_mem f sched _ i (hperm.mem_iff.mpr hi)

theorem filterMap_id_map_some (l : List α) (h : α → β) :
    (l.map (fun i => some (h i))).filterMap id = l.map h := by
  induction l with
  | nil => rfl
  | cons a t ih => simp [ih]

theorem map_range_getD (l : List α) (g : α → β) (d : α) :
    (List.range l.length).map (fun i => g (l.getD i d)) = l.map g := by
  induction l with
  | nil => rfl
  | cons a as ih =>
    rw [List.length_cons, List.range_succ_eq_map, List.map_cons, List.map_map]
    have h2 : List.map ((fun i => g ((a :: as).getD i d)) ∘ Nat.succ)
        (List.range as.length) = List.map g as := by
      rw [← ih]
      apply List.map_congr_left
      intro i _
      simp [Function.comp]
    rw [h2]
    simp [List.getD]

/-- `load_parquet_as_json_parallel` under an explicit completion schedule of
its batch-level workers: every batch's rows are produced in index order by
its own task, and the collect keeps batch order regardless of `sched`. -/
def loadParquetSched (batches : List RecordBatch) (sched : List Nat) :
    List Json :=
  ((parCollect (fun i => batchRows (batches.getD i ⟨0, []⟩))
      batches.length sched).filterMap id).flatten

/-- The chunk pipeline of `process_parquet_file2` under an explicit
completion schedule of its per-row compression workers (the out-of-range
arm is never reached for a schedule that permutes `0..rowLines.length`). -/
def assembleChunkSched (deflate : List Byte → List Byte)
    (rowLines : List (List Byte)) (sched : List Nat) : List Byte :=
  assembleFromResults ((parCollect (fun i =>
    mkChunkResult deflate (rowLines.getD i []))
    rowLines.length sched).filterMap id)

theorem loadParquetSched_eq (batches : List RecordBatch) (sched : List Nat)
    (hperm : sched.Perm (List.range batches.length)) :
    loadParquetSched batches sched = load_parquet_as_json batches := by
  rw [loadParquetSched, parCollect_eq_map _ _ _ hperm]
  rw [filterMap_id_map_some]
  rw [map_range_getD batches batchRows ⟨0, []⟩, load_parquet_as_json]

theorem assembleChunkSched_eq (deflate : List Byte → List Byte)
    (rowLines : List (List Byte)) (sched : List Nat)
    (hperm : sched.Perm (List.range rowLines.length)) :
    assembleChunkSched deflate rowLines sched = assembleChunk deflate rowLines := by
  rw [assembleChunkSched, parCollect_eq_map _ _ _ hperm]
  rw [filterMap_id_map_some]
  rw [map_range_getD rowLines (mkChunkResult deflate) [], assembleChunk]

/-- C9: confirmed under the schedule model of rayon's order-preserving
indexed collect.  For the same batches (and, per chunk, the same surviving
row lines and compressor), any two completion orders of the parallel workers
yield the identical row sequence in (batch, row-index) order — equal to the
sequential semantics — and byte-identical per-chunk output artifacts. -/
theorem c9_parallel_schedule_determinism (batches : List RecordBatch)
    (s₁ s₂ : List Nat) (h₁ : s₁.Perm (List.range batches.length))
    (h₂ : s₂.Perm (List.range batches.length)) :
    (loadParquetSched batches s₁ = loadParquetSched batches s₂ ∧
     loadParquetSched batches s₁ = load_parquet_as_json batches) ∧
    (∀ (deflate : List Byte → List Byte) (rowLines : List (List Byte))
       (t₁ t₂ : List Nat), t₁.Perm (List.range rowLines.length) →
       t₂.Perm (List.range rowLines.length) →
       assembleChunkSched deflate rowLines t₁ =
         assembleChunkSched deflate rowLines t₂ ∧
       assembleChunkSched deflate rowLines t₁ = assembleChunk deflate rowLines) := by
  refine ⟨⟨?_, loadParquetSched_eq batches s₁ h₁⟩, ?_⟩
  · rw [loadParquetSched_eq batches s₁ h₁, loadParquetSched_eq batches s₂ h₂]
  · intro deflate rowLines t₁ t₂ ht₁ ht₂
    exact ⟨by rw [assembleChunkSched_eq deflate rowLines t₁ ht₁,
        assembleChunkSched_eq deflate rowLines t₂ ht₂],
      assembleChunkSched_eq deflate rowLines t₁ ht₁⟩

/-- Witness for C9 at a concrete one-batch input with the only valid
schedule `[0]` on both runs. -/
theorem c9_parallel_schedule_determinism_witness :
    ([0] : List Nat).Perm (List.range 1) ∧
    ((loadParquetSched [⟨1, [("c", ArrowColumn.utf8 [some "y"])]⟩] [0] =
        loadParquetSched [⟨1, [("c", ArrowColumn.utf8 [some "y"])]⟩] [0] ∧
      loadParquetSched [⟨1, [("c", ArrowColumn.utf8 [some "y"])]⟩] [0] =
        load_parquet_as_json [⟨1, [("c", ArrowColumn.utf8 [some "y"])]⟩]) ∧
    (∀ (deflate : List Byte → List Byte) (rowLines : List (List Byte))
       (t₁ t₂ : List Nat), t₁.Perm (List.range rowLines.length) →
       t₂.Perm (List.range rowLines.length) →
       assembleChunkSched deflate rowLines t₁ =
         assembleChunkSched deflate rowLines t₂ ∧
       assembleChunkSched deflate rowLines t₁ = assembleChunk deflate rowLines)) :=
  ⟨by decide,
   c9_parallel_schedule_determinism [⟨1, [("c", ArrowColumn.utf8 [some "y"])]⟩]
     [0] [0] (by decide) (by decide)⟩

/-- The encoding_rs encodings the table in `decode_to_string`
(src/rust/src/io.rs:167) can select.  `Encoding::for_label(b"ISO-8859-9")`
resolves to windows-1254 and `Encoding::for_label(b"ISO-8859-11")` to
windows-874 under the WHATWG label registry, so those arms are represented
by the encodings they resolve to. -/
inductive Enc where
  | BIG5 | EUC_JP | GB18030 | WINDOWS_1252
  | ISO_8859_2 | ISO_8859_3 | ISO_8859_4 | ISO_8859_5 | ISO_8859_6
  | ISO_8859_7 | ISO_8859_8 | WINDOWS_1254 | ISO_8859_10 | WINDOWS_874
  | ISO_8859_13 | ISO_8859_14 | ISO_8859_15 | ISO_8859_16
  | KOI8_R | KOI8_U | MACINTOSH | WINDOWS_1250 | X_MAC_CYRILLIC
  | SHIFT_JIS | EUC_KR | UTF_16BE
  | WINDOWS_1251 | WINDOWS_1253 | WINDOWS_1255 | WINDOWS_1256
  | WINDOWS_1257 | WINDOWS_1258 | UTF_8
deriving DecidableEq

/-- Abstract interface to the two external decoding libraries: the three
complete oem_cp lookup tables (the oem_cp crate is a dependency, not part of
this repository; only their completeness — they are total 128-entry tables —
matters to the claims) and, for each encoding_rs encoding, the pair its
`decode` returns: the decoded string and the `had_errors` flag. -/
structure DecodeEnv where
  t852 : Nat → Char
  t855 : Nat → Char
  t866 : Nat → Char
  encDecode : Enc → List Byte → String × Bool

/-- oem_cp's `decode_string_complete_table`: bytes below 0x80 are ASCII,
bytes 0x80..0xFF index the complete 128-entry table; the decode is total and
never reports an error. -/
def decode_string_complete_table (bytes : List Byte) (table : Nat → Char) :
    String :=
  String.mk (bytes.map (fun b =>
    if b % 256 < 128 then Char.ofNat (b % 256) else table (b % 256 - 128)))

/-- ASCII upper-casing, the behavior of `str::to_uppercase` on ASCII input;
every name in the match table is ASCII, and a non-ASCII name misses the
table under either function. -/
def asciiUpperChar (c : Char) : Char :=
  if 'a' ≤ c ∧ c ≤ 'z' then Char.ofNat (c.toNat - 32) else c

def asciiUppercase (s : String) : String :=
  String.mk (s.data.map asciiUpperChar)

/-- The `match encoding_name.to_uppercase().as_str()` table of
`decode_to_string` (src/rust/src/io.rs:167): the uppercased name selects an
encoding_rs encoding, anything else falls through to the BAD ENCODING arm
(`none` here).  The three IBM code pages are matched before this table, by
exact name, and have no arm in it. -/
def encodingMatch : String → Option Enc
  | "BIG5" => some .BIG5
  | "EUC-JP" => some .EUC_JP
  | "GB18030" => some .GB18030
  | "ISO-8859-1" => some .WINDOWS_1252
  | "ISO-8859-2" | "ISO8859-2" => some .ISO_8859_2
  | "ISO-8859-3" | "ISO8859-3" => some .ISO_8859_3
  | "ISO-8859-4" | "ISO8859-4" => some .ISO_8859_4
  | "ISO-8859-5" | "ISO8859-5" => some .ISO_8859_5
  | "ISO-8859-6" | "ISO8859-6" => some .ISO_8859_6
  | "ISO-8859-7" | "ISO8859-7" => some .ISO_8859_7
  | "ISO-8859-8" | "ISO8859-8" => some .ISO_8859_8
  | "ISO-8859-9" | "ISO8859-9" => some .WINDOWS_1254
  | "ISO-8859-10" | "ISO8859-10" => some .ISO_8859_10
  | "ISO-8859-11" | "ISO8859-11" => some .WINDOWS_874
  | "ISO-8859-13" | "ISO8859-13" => some .ISO_8859_13
  | "ISO-8859-14" | "ISO8859-14" => some .ISO_8859_14
  | "ISO-8859-15" | "ISO8859-15" => some .ISO_8859_15
  | "ISO-8859-16" | "ISO8859-16" => some .ISO_8859_16
  | "KOI8-R" | "KOI8R" => some .KOI8_R
  | "KOI8-U" | "KOI8U" => some .KOI8_U
  | "MACINTOSH" | "MAC" => some .MACINTOSH
  | "MACCENTRALEUROPE" => some .WINDOWS_1250
  | "MACCYRILLIC" => some .X_MAC_CYRILLIC
  | "SHIFT_JIS" => some .SHIFT_JIS
  | "TIS-620" => some .WINDOWS_874
  | "UHC" => some .EUC_KR
  | "UTF-16" => some .UTF_16BE
  | "WINDOWS-874" | "CP874" => some .WINDOWS_874
  | "WINDOWS-1250" | "CP1250" => some .WINDOWS_1250
  | "WINDOWS-1251" | "CP1251" => some .WINDOWS_1251
  | "WINDOWS-1252" | "CP1252" => some .WINDOWS_1252
  | "WINDOWS-1253" | "CP1253" => some .WINDOWS_1253
  | "WINDOWS-1254" | "CP1254" => some .WINDOWS_1254
  | "WINDOWS-1255" | "CP1255" => some .WINDOWS_1255
  | "WINDOWS-1256" | "CP1256" => some .WINDOWS_1256
  | "WINDOWS-1257" | "CP1257" => some .WINDOWS_1257
  | "WINDOWS-1258" | "CP1258" => some .WINDOWS_1258
  | "UTF-8" | "UTF8" => some .UTF_8
  | _ => none

/-- The two error shapes of `decode_to_string` (the unused `DecodingError`
enum of src/rust/src/io.rs:148 names them; the function itself returns the
anyhow messages "BAD ENCODING {name}" and "Failed to decode bytes using {name}
encoding", both carrying the caller's name). -/
inductive DecodingError where
  | unsupportedEncoding (name : String)
  | decodingFailed (name : String)
deriving DecidableEq

/-- Mirrors `decode_to_string` (src/rust/src/io.rs:154): the three IBM code
pages are matched first by EXACT name and decoded by complete-table lookup
(always succeeding); otherwise the UPPERCASED name is looked up in the
encoding table (no arm: BAD ENCODING), and the selected encoding_rs decoder
runs — `had_errors` fails the whole decode, otherwise the decoded string is
returned whole. -/
def decode_to_string (env : DecodeEnv) (bytes : List Byte)
    (encoding_name : String) : Except DecodingError String :=
  if encoding_name == "IBM852" then
    .ok (decode_string_complete_table bytes env.t852)
  else if encoding_name == "IBM855" then
    .ok (decode_string_complete_table bytes env.t855)
  else if encoding_name == "IBM866" then
    .ok (decode_string_complete_table bytes env.t866)
  else
    match encodingMatch (asciiUppercase encoding_name) with
    | none => .error (.unsupportedEncoding encoding_name)
    | some enc =>
      let r := env.encDecode enc bytes
      if r.2 then .error (.decodingFailed encoding_name) else .ok r.1

/-- C10: confirmed.  Decoding with the exact names "IBM852", "IBM855" and
"IBM866" always succeeds, for every byte input and any decoder environment:
these names hit the complete-table lookup, which is total over all 256 byte
values, so the MalformedInput branch is unreachable and no input is ever
rejected under them. -/
theorem c10_ibm_table_decode_total (env : DecodeEnv) (bytes : List Byte) :
    decode_to_string env bytes "IBM852"
        = .ok (decode_string_complete_table bytes env.t852) ∧
    decode_to_string env bytes "IBM855"
        = .ok (decode_string_complete_table bytes env.t855) ∧
    decode_to_string env bytes "IBM866"
        = .ok (decode_string_complete_table bytes env.t866) := by
  refine ⟨rfl, ?_, ?_⟩ <;> simp [decode_to_string]

/-- C5: the claim is refuted as stated (corrected).  The three IBM names are
compared by exact match BEFORE the name is uppercased, so only every OTHER
table entry is matched case-insensitively: two names with the same ASCII
uppercasing, neither of which is exactly "IBM852", "IBM855" or "IBM866",
decode to the same result (up to the name echoed inside an error message),
while the lowercase variant "ibm852" is rejected even though "IBM852" is
accepted. -/
theorem c5_case_insensitive_except_ibm (env : DecodeEnv) (bytes : List Byte)
    (n₁ n₂ : String) (hup : asciiUppercase n₁ = asciiUppercase n₂)
    (h₁ : n₁ ≠ "IBM852") (h₂ : n₁ ≠ "IBM855") (h₃ : n₁ ≠ "IBM866")
    (h₄ : n₂ ≠ "IBM852") (h₅ : n₂ ≠ "IBM855") (h₆ : n₂ ≠ "IBM866") :
    (decode_to_string env bytes n₁).toOption
      = (decode_to_string env bytes n₂).toOption := by
  rw [decode_to_string, decode_to_string]
  rw [beq_eq_false_iff_ne.mpr h₁, beq_eq_false_iff_ne.mpr h₂,
    beq_eq_false_iff_ne.mpr h₃, beq_eq_false_iff_ne.mpr h₄,
    beq_eq_false_iff_ne.mpr h₅, beq_eq_false_iff_ne.mpr h₆]
  simp only [Bool.false_eq_true, if_false, hup]
  cases encodingMatch (asciiUppercase n₂) with
  | none => rfl
  | some enc =>
    by_cases hr : (env.encDecode enc bytes).2 <;> simp [hr, Except.toOption]

/-- A concrete decode environment for the C5 witness and counterexample. -/
def env0 : DecodeEnv :=
  { t852 := fun _ => 'x', t855 := fun _ => 'x', t866 := fun _ => 'x'
    encDecode := fun _ _ => ("", false) }

/-- Counterexample to C5 as stated: IBM852 is in the fixed table, yet the
lowercase variant "ibm852" is rejected while the canonical "IBM852" decodes;
the two case variants do not behave identically. -/
theorem c5_lowercase_ibm852_rejected :
    (decode_to_string env0 [] "ibm852").toOption = none ∧
    (decode_to_string env0 [] "IBM852").toOption = some "" := by
  constructor <;> decide

/-- Witness for C5 (amended) at the case pair "iso-8859-2" / "ISO-8859-2". -/
theorem c5_case_insensitive_except_ibm_witness :
    asciiUppercase "iso-8859-2" = asciiUppercase "ISO-8859-2" ∧
    (decode_to_string env0 [1, 2] "iso-8859-2").toOption
      = (decode_to_string env0 [1, 2] "ISO-8859-2").toOption :=
  ⟨by decide,
   c5_case_insensitive_except_ibm env0 [1, 2] "iso-8859-2" "ISO-8859-2"
     (by decide) (by decide) (by decide) (by decide) (by decide) (by decide)
     (by decide)⟩

/-- Whether the encoding name hits anything in the fixed table: one of the
three exact IBM names, or an arm of the uppercase match. -/
def nameSupported (name : String) : Bool :=
  name == "IBM852" || name == "IBM855" || name == "IBM866" ||
    (encodingMatch (asciiUppercase name)).isSome

/-- Whether the selected decoder reports an error condition for this input:
never for the IBM table decodes, else encoding_rs's `had_errors`. -/
def decodeHadErrors (env : DecodeEnv) (bytes : List Byte)
    (name : String) : Bool :=
  if name == "IBM852" || name == "IBM855" || name == "IBM866" then false
  else
    match encodingMatch (asciiUppercase name) with
    | some e => (env.encDecode e bytes).2
    | none => false

/-- The fully decoded string the resolver returns on success. -/
def fullDecodedString (env : DecodeEnv) (bytes : List Byte)
    (name : String) : String :=
  if name == "IBM852" then decode_string_complete_table bytes env.t852
  else if name == "IBM855" then decode_string_complete_table bytes env.t855
  else if name == "IBM866" then decode_string_complete_table bytes env.t866
  else
    match encodingMatch (asciiUppercase name) with
    | some e => (env.encDecode e bytes).1
    | none => ""

/-- C6: confirmed.  `decode_to_string` fails exactly when the name matches
nothing in the fixed table (and then with the unsupported-encoding error
naming the input) or when the selected decoder reports an error condition
(and then with the malformed-decode error); otherwise it returns the fully
decoded string — never a partial or best-effort result. -/
theorem c6_decode_error_taxonomy (env : DecodeEnv) (bytes : List Byte)
    (name : String) :
    ((decode_to_string env bytes name).toOption
        = if nameSupported name && !decodeHadErrors env bytes name
          then some (fullDecodedString env bytes name) else none) ∧
    (decode_to_string env bytes name
        = .error (.unsupportedEncoding name) ↔ nameSupported name = false) ∧
    (decode_to_string env bytes name
        = .error (.decodingFailed name) ↔ decodeHadErrors env bytes name = true) := by
  by_cases h1 : name = "IBM852"
  · subst h1
    simp [decode_to_string, nameSupported, decodeHadErrors, fullDecodedString,
      Except.toOption]
  by_cases h2 : name = "IBM855"
  · subst h2
    simp [decode_to_string, nameSupported, decodeHadErrors, fullDecodedString,
      Except.toOption]
  by_cases h3 : name = "IBM866"
  · subst h3
    simp [decode_to_string, nameSupported, decodeHadErrors, fullDecodedString,
      Except.toOption]
  have hb1 := beq_eq_false_iff_ne.mpr h1
  have hb2 := beq_eq_false_iff_ne.mpr h2
  have hb3 := beq_eq_false_iff_ne.mpr h3
  rw [decode_to_string, nameSupported, decodeHadErrors, fullDecodedString]
  rw [hb1, hb2, hb3]
  simp only [Bool.false_eq_true, if_false, Bool.false_or]
  cases hm : encodingMatch (asciiUppercase name) with
  | none => simp [Except.toOption]
  | some enc =>
    by_cases hr : (env.encDecode enc bytes).2 <;> simp [hr, Except.toOption]
